import Mathlib

/-!
Verification of the Lease Lightning applicant store and decision task.

The persisted state is a single JSON array of applicant objects; every
operation in `backend/services.py` reloads the whole list, mutates it in
memory and rewrites it under a lock.  We embed the records as a structure,
the collection as a `List Applicant`, and each service function as a pure
Lean function mirroring the Python line by line.  The lock serialises all
access, so the sequential functional semantics is the program's semantics.
-/

namespace LeaseLightning

/-- An applicant record: the eight fields of the JSON objects in
`applicants.json` (see `DEFAULTS` in `services.py` and `ApplicantResponse`
in `api.py`).  Python ints are modelled as `Int`. -/
structure Applicant where
  id : Int
  name : String
  unit : String
  date : String
  status : String
  risk : String
  income_match : String
  error_rate : String
deriving Repr, DecidableEq

/-- The five seed records written to the data file on first read
(`DEFAULTS` in `services.py`). -/
def DEFAULTS : List Applicant :=
  [ { id := 1001, name := "Anya Sharma", unit := "402B", date := "2025-11-19",
      status := "Decision Ready", risk := "Low", income_match := "110%", error_rate := "0%" },
    { id := 1002, name := "Ben Carter", unit := "105A", date := "2025-11-18",
      status := "Verification Agent", risk := "Pending", income_match := "Pending", error_rate := "N/A" },
    { id := 1003, name := "Chloe Davis", unit := "512C", date := "2025-11-17",
      status := "Decision Ready", risk := "Medium", income_match := "85%", error_rate := "0%" },
    { id := 1004, name := "David Lee", unit := "201B", date := "2025-11-15",
      status := "Document Agent", risk := "Low", income_match := "125%", error_rate := "0%" },
    { id := 1005, name := "Eva Rodriguez", unit := "308D", date := "2025-11-14",
      status := "Denied", risk := "High", income_match := "60%", error_rate := "N/A" } ]

/-- The data file on disk: `none` when `applicants.json` does not exist,
`some l` when it holds the array `l`. -/
def FileState := Option (List Applicant)

/-- `_read` in `services.py`: if the file is absent, write `DEFAULTS` to it
and return them; otherwise return the parsed contents.  The result pairs
the returned collection with the file state after the call. -/
def readFile (file : FileState) : List Applicant × FileState :=
  match file with
  | none => (DEFAULTS, some DEFAULTS)
  | some l => (l, some l)

/-- `list_applicants` in `services.py`: returns the full collection. -/
def list_applicants (data : List Applicant) : List Applicant := data

/-- `get_applicant` in `services.py`: scan the collection and return the
first record whose `id` matches, else `None`. -/
def get_applicant (app_id : Int) (data : List Applicant) : Option Applicant :=
  data.find? (fun a => a.id == app_id)

/-- The id bound computed in `create_applicant`:
`max((a["id"] for a in data), default=1000)` — the maximum of the ids,
or `1000` when the collection is empty. -/
def maxIdOr1000 (data : List Applicant) : Int :=
  match data.map (fun a => a.id) with
  | [] => 1000
  | x :: xs => xs.foldl max x

/-- `create_applicant` in `services.py`: assign `new_id = max ids + 1`
(`1001` on an empty collection), build the record with default
status/risk/income_match/error_rate, append it and persist.  `date` is
`datetime.now().strftime("%Y-%m-%d")`, passed here as the parameter
`today`.  Returns the new record and the persisted collection. -/
def create_applicant (name unit today : String) (data : List Applicant) :
    Applicant × List Applicant :=
  let new_id := maxIdOr1000 data + 1
  let new : Applicant :=
    { id := new_id, name := name, unit := unit, date := today,
      status := "Submitted/Manual", risk := "Pending",
      income_match := "N/A", error_rate := "N/A" }
  (new, data ++ [new])

/-- The body of `ApplicantUpdate` in `api.py`: the PATCH schema admits only
the two optional fields `status` and `risk`; `payload.dict()` maps an
unsupplied field to `None`. -/
structure ApplicantUpdate where
  status : Option String := none
  risk : Option String := none
deriving Repr, DecidableEq

/-- The merge loop of `update_applicant`:
`for k, v in updates.items(): if v is not None: a[k] = v` applied to the
keys `status` and `risk` of the update payload. -/
def applyUpdates (a : Applicant) (u : ApplicantUpdate) : Applicant :=
  { a with
    status := match u.status with | none => a.status | some s => s,
    risk := match u.risk with | none => a.risk | some r => r }

/-- `update_applicant` in `services.py`: walk the collection, merge the
non-null fields of the payload into the first record whose `id` matches,
persist, and return the merged record together with the persisted
collection; return `None` (and do not write) when no record matches. -/
def update_applicant (app_id : Int) (u : ApplicantUpdate) :
    List Applicant → Option (Applicant × List Applicant)
  | [] => none
  | a :: rest =>
    if a.id == app_id then
      let merged := applyUpdates a u
      some (merged, merged :: rest)
    else
      match update_applicant app_id u rest with
      | none => none
      | some (r, rest') => some (r, a :: rest')

/-- `delete_applicant` in `services.py`: filter out every record whose `id`
matches; if nothing was removed return `False` without writing, otherwise
persist the filtered collection and return `True`.  The result pairs the
reported Boolean with the persisted collection. -/
def delete_applicant (app_id : Int) (data : List Applicant) :
    Bool × List Applicant :=
  let new := data.filter (fun a => a.id != app_id)
  if new.length = data.length then (false, data) else (true, new)

/-- The value returned by `_mock_decision_engine` in `services.py`. -/
structure DecisionResult where
  status : String
  risk : String
  note : String
deriving Repr, DecidableEq

/-- `_mock_decision_engine` in `services.py`: after the simulated delay,
risk is `"Low"` when the applicant's id is even and `"Medium"` otherwise,
status is `"Decision Ready"` unconditionally, and the note records the
processing time (`datetime.utcnow().isoformat()`, passed as `now`). -/
def mockDecisionEngine (applicant : Applicant) (now : String) : DecisionResult :=
  { status := "Decision Ready",
    risk := if applicant.id % 2 = 0 then "Low" else "Medium",
    note := "Processed at " ++ now }

/-- The body of `task()` inside `enqueue_decision_agent` in `services.py`:
look the applicant up; if absent, return leaving the collection alone;
otherwise run the engine and write only its `status` and `risk` back
through `update_applicant`.  Returns the collection after the task. -/
def decisionTask (applicant_id : Int) (now : String) (data : List Applicant) :
    List Applicant :=
  match get_applicant applicant_id data with
  | none => data
  | some applicant =>
    let res := mockDecisionEngine applicant now
    match update_applicant applicant_id
        { status := some res.status, risk := some res.risk } data with
    | none => data
    | some (_, data') => data'

/-- Outcome of an API endpoint: a payload or a 404. -/
inductive ApiResult (α : Type) where
  | ok : α → ApiResult α
  | notFound : ApiResult α
deriving Repr, DecidableEq

/-- `get_applicant` endpoint in `api.py`: 404 when the service returns
`None`. -/
def api_get_applicant (app_id : Int) (data : List Applicant) :
    ApiResult Applicant :=
  match get_applicant app_id data with
  | none => ApiResult.notFound
  | some a => ApiResult.ok a

/-- `patch_applicant` endpoint in `api.py`: run the service update with the
payload's dict; 404 when it returns `None`.  Paired with the persisted
collection after the call (unchanged on 404, since the service does not
write in that case). -/
def api_patch_applicant (app_id : Int) (u : ApplicantUpdate)
    (data : List Applicant) : ApiResult Applicant × List Applicant :=
  match update_applicant app_id u data with
  | none => (ApiResult.notFound, data)
  | some (a, data') => (ApiResult.ok a, data')

/-- `delete_applicant` endpoint in `api.py`: 404 when the service reports
that no record existed.  Paired with the persisted collection after the
call. -/
def api_delete_applicant (app_id : Int) (data : List Applicant) :
    ApiResult Unit × List Applicant :=
  match delete_applicant app_id data with
  | (false, d) => (ApiResult.notFound, d)
  | (true, d) => (ApiResult.ok (), d)

/-- The acknowledgment body `{"status": "queued", "applicant_id": app_id}`
returned by `run_decision` in `api.py`. -/
structure QueuedAck where
  status : String
  applicant_id : Int
deriving Repr, DecidableEq

/-- `run_decision` endpoint in `api.py`: 404 when the applicant does not
exist, otherwise schedule the decision task and return the queued
acknowledgment immediately. -/
def api_run_decision (app_id : Int) (data : List Applicant) :
    ApiResult QueuedAck :=
  match get_applicant app_id data with
  | none => ApiResult.notFound
  | some _ => ApiResult.ok { status := "queued", applicant_id := app_id }

/-- The fields of a record that neither the PATCH schema nor the decision
write-back can supply: everything except `status` and `risk`. -/
def frameFields (a : Applicant) : Int × String × String × String × String × String :=
  (a.id, a.name, a.unit, a.date, a.income_match, a.error_rate)

/-! ### Helper lemmas about the id maximum -/

lemma le_foldl_max (x : Int) (xs : List Int) : x ≤ xs.foldl max x := by
  induction xs generalizing x with
  | nil => exact le_refl x
  | cons y ys ih => exact le_trans (le_max_left x y) (ih (max x y))

lemma mem_le_foldl_max (x : Int) (xs : List Int) :
    ∀ y ∈ xs, y ≤ xs.foldl max x := by
  induction xs generalizing x with
  | nil => intro y hy; cases hy
  | cons z zs ih =>
    intro y hy
    rcases List.mem_cons.mp hy with h | h
    · subst h
      exact le_trans (le_max_right x y) (le_foldl_max _ zs)
    · exact ih (max x z) y h

lemma foldl_max_mem (x : Int) (xs : List Int) :
    xs.foldl max x = x ∨ xs.foldl max x ∈ xs := by
  induction xs generalizing x with
  | nil => left; rfl
  | cons z zs ih =>
    rcases ih (max x z) with h | h
    · rcases max_choice x z with he | he
      · left; simpa [he] using h
      · right; exact List.mem_cons.mpr (Or.inl (by simpa [he] using h))
    · right; exact List.mem_cons_of_mem _ h

lemma maxIdOr1000_ge (data : List Applicant) :
    ∀ a ∈ data, a.id ≤ maxIdOr1000 data := by
  intro a ha
  cases data with
  | nil => cases ha
  | cons b rest =>
    rcases List.mem_cons.mp ha with h | h
    · subst h
      simpa [maxIdOr1000] using le_foldl_max a.id (rest.map (fun a => a.id))
    · exact mem_le_foldl_max b.id (rest.map (fun a => a.id)) a.id
        (List.mem_map_of_mem _ h)

lemma maxIdOr1000_attained (data : List Applicant) (h : data ≠ []) :
    ∃ a ∈ data, a.id = maxIdOr1000 data := by
  cases data with
  | nil => exact absurd rfl h
  | cons b rest =>
    rcases foldl_max_mem b.id (rest.map (fun a => a.id)) with he | he
    · exact ⟨b, List.mem_cons_self b rest, by simpa [maxIdOr1000] using he.symm⟩
    · rcases List.mem_map.mp he with ⟨a, ha, hae⟩
      exact ⟨a, List.mem_cons_of_mem _ ha, by simpa [maxIdOr1000] using hae⟩

/-! ### Helper lemmas about lookup and update -/

lemma update_applicant_eq_none_iff (i : Int) (u : ApplicantUpdate) :
    ∀ data : List Applicant,
      (update_applicant i u data = none ↔ ∀ a ∈ data, a.id ≠ i)
  | [] => by simp [update_applicant]
  | b :: rest => by
    have ih := update_applicant_eq_none_iff i u rest
    by_cases hb : b.id = i
    · simp [update_applicant, hb]
    · cases hrec : update_applicant i u rest with
      | none =>
        simp only [update_applicant, beq_iff_eq, if_neg hb, hrec]
        constructor
        · intro _ a ha
          rcases List.mem_cons.mp ha with h | h
          · rw [h]; exact hb
          · exact (ih.mp hrec) a h
        · intro _; trivial
      | some p =>
        obtain ⟨r, rest'⟩ := p
        simp only [update_applicant, beq_iff_eq, if_neg hb, hrec]
        constructor
        · intro hcontra; cases hcontra
        · intro hall
          have hnone := ih.mpr (fun a ha => hall a (List.mem_cons_of_mem _ ha))
          rw [hrec] at hnone; cases hnone

lemma get_applicant_id (i : Int) (data : List Applicant) (a : Applicant)
    (h : get_applicant i data = some a) : a.id = i := by
  have := List.find?_some h
  simpa using this

lemma update_applicant_of_get (i : Int) (u : ApplicantUpdate) :
    ∀ (data : List Applicant) (a : Applicant),
      get_applicant i data = some a →
      ∃ pre post, data = pre ++ a :: post ∧ (∀ b ∈ pre, b.id ≠ i) ∧
        update_applicant i u data =
          some (applyUpdates a u, pre ++ applyUpdates a u :: post)
  | [], a => by simp [get_applicant]
  | b :: rest, a => by
    intro h
    by_cases hb : b.id = i
    · have hpos : (b.id == i) = true := beq_iff_eq.mpr hb
      have hfind : get_applicant i (b :: rest) = some b := by
        unfold get_applicant
        exact List.find?_cons_of_pos _ hpos
      have hab : b = a := by
        rw [hfind] at h
        exact Option.some.inj h
      subst hab
      refine ⟨[], rest, rfl, by simp, ?_⟩
      simp [update_applicant, hb]
    · have hneg : ¬ ((b.id == i) = true) := by simpa using hb
      have hrest : get_applicant i rest = some a := by
        have hstep : get_applicant i (b :: rest) = get_applicant i rest := by
          unfold get_applicant
          exact List.find?_cons_of_neg _ hneg
        rw [hstep] at h
        exact h
      obtain ⟨pre, post, hdec, hpre, hupd⟩ :=
        update_applicant_of_get i u rest a hrest
      refine ⟨b :: pre, post, by rw [hdec]; rfl, ?_, ?_⟩
      · intro c hc
        rcases List.mem_cons.mp hc with h' | h'
        · rw [h']; exact hb
        · exact hpre c h'
      · simp [update_applicant, hb, hupd]

lemma get_applicant_append (i : Int) (a : Applicant) (ha : a.id = i) :
    ∀ (pre post : List Applicant), (∀ b ∈ pre, b.id ≠ i) →
      get_applicant i (pre ++ a :: post) = some a
  | [], post => by
    intro _
    simp [get_applicant, ha]
  | b :: bs, post => by
    intro hpre
    have hb : ¬ b.id = i := hpre b (List.mem_cons_self b bs)
    have htail := get_applicant_append i a ha bs post
      (fun c hc => hpre c (List.mem_cons_of_mem _ hc))
    simpa [get_applicant, List.cons_append, hb] using htail

lemma update_applicant_map_frame (i : Int) (u : ApplicantUpdate) :
    ∀ (data : List Applicant) (r : Applicant) (data' : List Applicant),
      update_applicant i u data = some (r, data') →
      data'.map frameFields = data.map frameFields
  | [], r, d' => by simp [update_applicant]
  | b :: rest, r, d' => by
    intro h
    by_cases hb : b.id = i
    · simp only [update_applicant, beq_iff_eq, if_pos hb, Option.some.injEq,
        Prod.mk.injEq] at h
      rw [← h.2]
      simp only [List.map_cons]
      rfl
    · cases hrec : update_applicant i u rest with
      | none =>
        simp [update_applicant, hb, hrec] at h
      | some p =>
        obtain ⟨r0, rest'⟩ := p
        simp only [update_applicant, beq_iff_eq, if_neg hb, hrec,
          Option.some.injEq, Prod.mk.injEq] at h
        have htail := update_applicant_map_frame i u rest r0 rest' hrec
        rw [← h.2]
        simp only [List.map_cons, htail]

lemma map_id_of_map_frame {l₁ l₂ : List Applicant}
    (h : l₁.map frameFields = l₂.map frameFields) :
    l₁.map (fun a => a.id) = l₂.map (fun a => a.id) := by
  have h2 := congrArg
    (List.map (fun p : Int × String × String × String × String × String => p.1)) h
  rw [List.map_map, List.map_map] at h2
  exact h2

/-! ### Claim theorems -/

/-- C1: `create_applicant` assigns the new record the id
(max existing id) + 1 — in particular `1001` on an empty collection — so
the new id is strictly greater than every existing id. -/
theorem create_assigns_max_plus_one (name unit today : String)
    (data : List Applicant) :
    (data = [] → (create_applicant name unit today data).1.id = 1001) ∧
    (data ≠ [] →
      ∃ a ∈ data, (create_applicant name unit today data).1.id = a.id + 1 ∧
        ∀ b ∈ data, b.id ≤ a.id) ∧
    (∀ a ∈ data, a.id < (create_applicant name unit today data).1.id) := by
  refine ⟨fun h => by subst h; rfl, fun h => ?_, fun a ha => ?_⟩
  · rcases maxIdOr1000_attained data h with ⟨a, ha, hm⟩
    refine ⟨a, ha, by simp [create_applicant, hm], fun b hb => ?_⟩
    rw [hm]; exact maxIdOr1000_ge data b hb
  · have := maxIdOr1000_ge data a ha
    have hlt : a.id < maxIdOr1000 data + 1 := lt_of_le_of_lt this (lt_add_one _)
    simpa [create_applicant] using hlt

/-- Witness for C1 at a concrete collection. -/
theorem create_assigns_max_plus_one_witness :
    ((create_applicant "Z" "9Z" "2025-12-01" []).1.id = 1001) ∧
    (∃ a ∈ DEFAULTS,
      (create_applicant "Z" "9Z" "2025-12-01" DEFAULTS).1.id = a.id + 1 ∧
        ∀ b ∈ DEFAULTS, b.id ≤ a.id) := by
  have h1 := create_assigns_max_plus_one "Z" "9Z" "2025-12-01" ([] : List Applicant)
  have h2 := create_assigns_max_plus_one "Z" "9Z" "2025-12-01" DEFAULTS
  exact ⟨h1.1 rfl, h2.2.1 (by decide)⟩

/-- C2: for every applicant present when the decision task begins, the task
computes risk Low when the applicant's id is even and Medium otherwise,
sets status to Decision Ready unconditionally, and writes that pair back
through the update operation: the task's resulting collection is exactly
the one `update_applicant` produces for that payload, and looking the
applicant up afterwards returns the record with the new status and risk. -/
theorem decision_task_writes_status_risk (i : Int) (now : String)
    (data : List Applicant) (a : Applicant)
    (h : get_applicant i data = some a) :
    (∃ data',
      update_applicant i
        { status := some "Decision Ready",
          risk := some (if a.id % 2 = 0 then "Low" else "Medium") } data =
        some ({ a with
          status := "Decision Ready",
          risk := if a.id % 2 = 0 then "Low" else "Medium" }, data') ∧
      decisionTask i now data = data') ∧
    get_applicant i (decisionTask i now data) =
      some { a with
        status := "Decision Ready",
        risk := if a.id % 2 = 0 then "Low" else "Medium" } := by
  have hai : a.id = i := get_applicant_id i data a h
  obtain ⟨pre, post, hdec, hpre, hupd⟩ := update_applicant_of_get i
    { status := some "Decision Ready",
      risk := some (if a.id % 2 = 0 then "Low" else "Medium") } data a h
  have htask : decisionTask i now data =
      pre ++ applyUpdates a
        { status := some "Decision Ready",
          risk := some (if a.id % 2 = 0 then "Low" else "Medium") } :: post := by
    unfold decisionTask
    rw [h]
    simp only [mockDecisionEngine]
    rw [hupd]
  refine ⟨⟨pre ++ applyUpdates a
      { status := some "Decision Ready",
        risk := some (if a.id % 2 = 0 then "Low" else "Medium") } :: post,
      hupd, htask⟩, ?_⟩
  rw [htask]
  exact get_applicant_append i
    (applyUpdates a
      { status := some "Decision Ready",
        risk := some (if a.id % 2 = 0 then "Low" else "Medium") })
    hai pre post hpre

/-- Witness for C2: the seeded applicant 1002 has an even id; after the
task its record carries risk Low and status Decision Ready. -/
theorem decision_task_writes_status_risk_witness :
    get_applicant 1002 (decisionTask 1002 "2025-11-20T00:00:00" DEFAULTS) =
      some { id := 1002, name := "Ben Carter", unit := "105A",
             date := "2025-11-18", status := "Decision Ready", risk := "Low",
             income_match := "Pending", error_rate := "N/A" } := by
  have H := decision_task_writes_status_risk 1002 "2025-11-20T00:00:00" DEFAULTS
    ⟨1002, "Ben Carter", "105A", "2025-11-18", "Verification Agent",
      "Pending", "Pending", "N/A"⟩ (by decide)
  exact H.2

/-- C3: a partial update on an existing id overwrites exactly the fields
whose supplied value is non-null in the first matching record; every field
not supplied (or supplied as null) keeps its previous value, and every
other record of the collection is unchanged. -/
theorem patch_overwrites_only_non_null (i : Int) (u : ApplicantUpdate)
    (data : List Applicant) (a : Applicant)
    (h : get_applicant i data = some a) :
    ∃ pre post,
      data = pre ++ a :: post ∧
      (∀ b ∈ pre, b.id ≠ i) ∧
      update_applicant i u data =
        some (applyUpdates a u, pre ++ applyUpdates a u :: post) ∧
      (applyUpdates a u).id = a.id ∧
      (applyUpdates a u).name = a.name ∧
      (applyUpdates a u).unit = a.unit ∧
      (applyUpdates a u).date = a.date ∧
      (applyUpdates a u).income_match = a.income_match ∧
      (applyUpdates a u).error_rate = a.error_rate ∧
      (u.status = none → (applyUpdates a u).status = a.status) ∧
      (∀ s, u.status = some s → (applyUpdates a u).status = s) ∧
      (u.risk = none → (applyUpdates a u).risk = a.risk) ∧
      (∀ r, u.risk = some r → (applyUpdates a u).risk = r) := by
  obtain ⟨pre, post, hdec, hpre, hupd⟩ := update_applicant_of_get i u data a h
  refine ⟨pre, post, hdec, hpre, hupd, rfl, rfl, rfl, rfl, rfl, rfl,
    ?_, ?_, ?_, ?_⟩
  · intro hs; simp [applyUpdates, hs]
  · intro s hs; simp [applyUpdates, hs]
  · intro hr; simp [applyUpdates, hr]
  · intro r hr; simp [applyUpdates, hr]

/-- Witness for C3: patching applicant 1002 with status only leaves its
risk at the previous value. -/
theorem patch_overwrites_only_non_null_witness :
    (applyUpdates
      ⟨1002, "Ben Carter", "105A", "2025-11-18", "Verification Agent",
        "Pending", "Pending", "N/A"⟩
      ⟨some "Decision Ready", none⟩).risk = "Pending" := by
  have H := patch_overwrites_only_non_null 1002 ⟨some "Decision Ready", none⟩
    DEFAULTS
    ⟨1002, "Ben Carter", "105A", "2025-11-18", "Verification Agent",
      "Pending", "Pending", "N/A"⟩ (by decide)
  obtain ⟨pre, post, h1, h2, h3, h4, h5, h6, h7, h8, h9, h10, h11, hrn, hrs⟩ := H
  exact hrn rfl

/-- C4: updating an id that is not present returns not-found and leaves the
persisted collection exactly as it was. -/
theorem patch_unknown_id_not_found (i : Int) (u : ApplicantUpdate)
    (data : List Applicant) (h : ∀ a ∈ data, a.id ≠ i) :
    api_patch_applicant i u data = (ApiResult.notFound, data) := by
  have hnone := (update_applicant_eq_none_iff i u data).mpr h
  unfold api_patch_applicant
  rw [hnone]

/-- Witness for C4: id 2000 is absent from the seed collection and patching
it is a 404 that leaves the collection untouched. -/
theorem patch_unknown_id_not_found_witness :
    api_patch_applicant 2000 ⟨some "Approved/Leased", none⟩ DEFAULTS =
      (ApiResult.notFound, DEFAULTS) :=
  patch_unknown_id_not_found 2000 ⟨some "Approved/Leased", none⟩ DEFAULTS
    (by decide)

/-- C8: when the data file is absent, the first read seeds it with exactly
the five fixed sample records (ids 1001 through 1005) and returns them;
when the file is present, a read returns exactly the persisted
collection. -/
theorem read_seeds_defaults :
    readFile none = (DEFAULTS, some DEFAULTS) ∧
    DEFAULTS.length = 5 ∧
    DEFAULTS.map (fun a => a.id) = [1001, 1002, 1003, 1004, 1005] ∧
    ∀ l : List Applicant, readFile (some l) = (l, some l) :=
  ⟨rfl, rfl, rfl, fun _ => rfl⟩

/-- C9: the decision task on an applicant id that is not present when the
task begins terminates without performing any write: the collection is
returned unchanged. -/
theorem decision_task_absent_id_no_write (i : Int) (now : String)
    (data : List Applicant) (h : get_applicant i data = none) :
    decisionTask i now data = data := by
  unfold decisionTask
  rw [h]

/-- Witness for C9: id 999 is absent from the seed collection and the task
leaves it untouched. -/
theorem decision_task_absent_id_no_write_witness :
    get_applicant 999 DEFAULTS = none ∧
    decisionTask 999 "2025-11-20T00:00:00" DEFAULTS = DEFAULTS :=
  ⟨by decide,
    decision_task_absent_id_no_write 999 "2025-11-20T00:00:00" DEFAULTS (by decide)⟩

/-! ### Further helper lemmas: lookup misses, filtering, frame of the task -/

lemma get_applicant_eq_none_iff (i : Int) (data : List Applicant) :
    get_applicant i data = none ↔ ∀ a ∈ data, a.id ≠ i := by
  unfold get_applicant
  rw [List.find?_eq_none]
  constructor
  · intro h a ha
    simpa using h a ha
  · intro h a ha
    simpa using h a ha

lemma filter_length_eq_iff (p : Applicant → Bool) :
    ∀ l : List Applicant, ((l.filter p).length = l.length ↔ ∀ a ∈ l, p a)
  | [] => by simp
  | b :: rest => by
    have ih := filter_length_eq_iff p rest
    by_cases hb : p b
    · simp [List.filter_cons, hb, ih]
    · have hle := List.length_filter_le p rest
      rw [List.filter_cons_of_neg hb, List.length_cons]
      constructor
      · intro hlen
        exfalso
        omega
      · intro hall
        exact absurd (hall b (List.mem_cons_self b rest)) hb

lemma decisionTask_map_frame (i : Int) (now : String) (data : List Applicant) :
    (decisionTask i now data).map frameFields = data.map frameFields := by
  unfold decisionTask
  cases hg : get_applicant i data with
  | none => rfl
  | some a =>
    simp only [mockDecisionEngine]
    cases hrec : update_applicant i
        { status := some "Decision Ready",
          risk := some (if a.id % 2 = 0 then "Low" else "Medium") } data with
    | none => rfl
    | some p =>
      obtain ⟨r, d'⟩ := p
      exact update_applicant_map_frame i _ data r d' hrec

/-- C5: starting from a collection whose ids are pairwise distinct, each
Store operation — create, update with the API's status/risk payload (the
collection is unchanged when the update misses), and delete — yields a
collection whose ids are still pairwise distinct. -/
theorem store_ops_preserve_id_uniqueness (name unit today : String)
    (i : Int) (u : ApplicantUpdate) (data : List Applicant)
    (h : (data.map (fun a => a.id)).Nodup) :
    ((create_applicant name unit today data).2.map (fun a => a.id)).Nodup ∧
    (((update_applicant i u data).elim data Prod.snd).map
      (fun a => a.id)).Nodup ∧
    ((delete_applicant i data).2.map (fun a => a.id)).Nodup := by
  refine ⟨?_, ?_, ?_⟩
  · have hmap : (create_applicant name unit today data).2.map (fun a => a.id) =
        data.map (fun a => a.id) ++ [maxIdOr1000 data + 1] := by
      simp [create_applicant]
    rw [hmap, List.nodup_append]
    refine ⟨h, List.nodup_singleton _, ?_⟩
    intro x hx hx1
    rcases List.mem_map.mp hx with ⟨a, ha, rfl⟩
    have hle := maxIdOr1000_ge data a ha
    have : a.id = maxIdOr1000 data + 1 := by simpa using hx1
    omega
  · cases hrec : update_applicant i u data with
    | none => simpa using h
    | some p =>
      obtain ⟨r, d'⟩ := p
      have hframe := update_applicant_map_frame i u data r d' hrec
      have hids := map_id_of_map_frame hframe
      show ((d').map (fun a => a.id)).Nodup
      rw [hids]
      exact h
  · by_cases hlen :
        (data.filter (fun a => a.id != i)).length = data.length
    · have hdel : delete_applicant i data = (false, data) := by
        unfold delete_applicant
        rw [if_pos hlen]
      rw [hdel]
      exact h
    · have hdel : delete_applicant i data =
          (true, data.filter (fun a => a.id != i)) := by
        unfold delete_applicant
        rw [if_neg hlen]
      rw [hdel]
      exact h.sublist ((List.filter_sublist data).map _)

/-- Witness for C5 at the seed collection. -/
theorem store_ops_preserve_id_uniqueness_witness :
    ((create_applicant "Z" "9Z" "2025-12-01" DEFAULTS).2.map
      (fun a => a.id)).Nodup ∧
    (((update_applicant 1001 ⟨some "Approved/Leased", none⟩ DEFAULTS).elim
      DEFAULTS Prod.snd).map (fun a => a.id)).Nodup ∧
    ((delete_applicant 1001 DEFAULTS).2.map (fun a => a.id)).Nodup :=
  store_ops_preserve_id_uniqueness "Z" "9Z" "2025-12-01" 1001
    ⟨some "Approved/Leased", none⟩ DEFAULTS (by decide)

/-- C6: when the collection contains exactly one record with the given id,
delete reports that a record existed and the collection returned by every
subsequent list call contains no record with that id. -/
theorem delete_removes_unique_id (i : Int) (data : List Applicant)
    (h : data.countP (fun a => a.id == i) = 1) :
    (delete_applicant i data).1 = true ∧
    ∀ a ∈ list_applicants (delete_applicant i data).2, a.id ≠ i := by
  have hex : ∃ a ∈ data, (a.id == i) = true := by
    by_contra hnone
    push_neg at hnone
    have hz : data.countP (fun a => a.id == i) = 0 :=
      List.countP_eq_zero.mpr (by
        intro a ha
        simpa using hnone a ha)
    rw [hz] at h
    cases h
  obtain ⟨a0, ha0, hpa0⟩ := hex
  have hlen : ¬ (data.filter (fun a => a.id != i)).length = data.length := by
    intro hlen
    have hall := (filter_length_eq_iff _ data).mp hlen
    have hne := hall a0 ha0
    have heq : a0.id = i := by simpa using hpa0
    simp [heq] at hne
  have hdel : delete_applicant i data =
      (true, data.filter (fun a => a.id != i)) := by
    unfold delete_applicant
    rw [if_neg hlen]
  rw [hdel]
  refine ⟨rfl, ?_⟩
  intro a ha
  have := List.mem_filter.mp ha
  simpa using this.2

/-- Witness for C6: id 1003 occurs exactly once in the seed collection and
deleting it reports success. -/
theorem delete_removes_unique_id_witness :
    (delete_applicant 1003 DEFAULTS).1 = true :=
  (delete_removes_unique_id 1003 DEFAULTS (by decide)).1

/-- C7: the API operations get, partial-update, delete and run-decision
respond not-found exactly when no record with the id exists at the time of
the call, and run-decision on an existing id returns the queued
acknowledgment. -/
theorem api_not_found_iff_absent (i : Int) (u : ApplicantUpdate)
    (data : List Applicant) :
    (api_get_applicant i data = ApiResult.notFound ↔ ∀ a ∈ data, a.id ≠ i) ∧
    ((api_patch_applicant i u data).1 = ApiResult.notFound ↔
      ∀ a ∈ data, a.id ≠ i) ∧
    ((api_delete_applicant i data).1 = ApiResult.notFound ↔
      ∀ a ∈ data, a.id ≠ i) ∧
    (api_run_decision i data = ApiResult.notFound ↔ ∀ a ∈ data, a.id ≠ i) ∧
    ((∃ a ∈ data, a.id = i) → api_run_decision i data =
      ApiResult.ok { status := "queued", applicant_id := i }) := by
  have hget := get_applicant_eq_none_iff i data
  have hfe : ((data.filter (fun a => a.id != i)).length = data.length) ↔
      ∀ a ∈ data, a.id ≠ i := by
    rw [filter_length_eq_iff]
    constructor
    · intro hall a ha
      simpa using hall a ha
    · intro hall a ha
      simpa using hall a ha
  refine ⟨?_, ?_, ?_, ?_, ?_⟩
  · rw [← hget]
    unfold api_get_applicant
    cases hg : get_applicant i data <;> simp
  · rw [← (update_applicant_eq_none_iff i u data)]
    unfold api_patch_applicant
    cases hrec : update_applicant i u data with
    | none => simp
    | some p =>
      obtain ⟨r, d'⟩ := p
      simp
  · rw [← hfe]
    unfold api_delete_applicant delete_applicant
    by_cases hlen : (data.filter (fun a => a.id != i)).length = data.length
    · simp [hlen]
    · simp [hlen]
  · rw [← hget]
    unfold api_run_decision
    cases hg : get_applicant i data <;> simp
  · rintro ⟨a, ha, hai⟩
    unfold api_run_decision
    cases hg : get_applicant i data with
    | none => exact absurd hai (hget.mp hg a ha)
    | some b => rfl

/-- Witness for C7: id 999 is absent (404 on get) and id 1001 is present
(run-decision acknowledges with a queued response). -/
theorem api_not_found_iff_absent_witness :
    api_get_applicant 999 DEFAULTS = ApiResult.notFound ∧
    api_run_decision 1001 DEFAULTS =
      ApiResult.ok { status := "queued", applicant_id := 1001 } := by
  have H1 := api_not_found_iff_absent 999 ⟨none, none⟩ DEFAULTS
  have H2 := api_not_found_iff_absent 1001 ⟨none, none⟩ DEFAULTS
  refine ⟨H1.1.mpr (by decide), H2.2.2.2.2 ?_⟩
  exact ⟨⟨1001, "Anya Sharma", "402B", "2025-11-19", "Decision Ready",
    "Low", "110%", "0%"⟩, by decide, rfl⟩

/-- C10: neither a PATCH through the API nor the decision task's write-back
can change the fields id, name, unit, date, income_match or error_rate of
any record: the PATCH schema (`ApplicantUpdate`) admits only status and
risk, and the task writes back only the engine's status and risk, its note
being discarded. -/
theorem patch_and_task_preserve_frame (i : Int) (u : ApplicantUpdate)
    (now : String) (data : List Applicant) :
    (api_patch_applicant i u data).2.map frameFields = data.map frameFields ∧
    (decisionTask i now data).map frameFields = data.map frameFields := by
  refine ⟨?_, decisionTask_map_frame i now data⟩
  unfold api_patch_applicant
  cases hrec : update_applicant i u data with
  | none => rfl
  | some p =>
    obtain ⟨r, d'⟩ := p
    exact update_applicant_map_frame i u data r d' hrec

end LeaseLightning
